import Mathlib

/-!
Verification of the pyNekTools Router (src/pynektools/comm/router.py).

The Router moves flat numeric buffers between the P ranks of an MPI
communicator.  We embed the four public operations shallowly:

* payloads are flat lists of integers (numpy arrays are always flattened
  before transfer, so a flat list is the faithful abstraction; `size` is
  the list length and `flatten` the identity);
* the MPI collective is modelled globally: a function `args : Nat → DistArgs`
  gives every rank its call arguments, and each per-rank function computes
  that rank's local view of the collective result;
* the Router object state (the two scratch vectors `destination_count` and
  `source_count` of `__init__`, lines 45-51) is threaded explicitly;
* the order of the communication primitives inside one call is recorded as
  a trace of events;
* Python exceptions become an explicit error type.
-/

namespace PyNek

/-- A flat buffer of elements (one numpy array, already flattened). -/
abbrev Buf := List Int

/-- The `data` argument of `send_recv` (router.py line 90): either a list of
arrays, one per destination, or a single ndarray broadcast to every
destination (docstring lines 102-105). -/
inductive DistData where
  | perDest (bufs : List Buf) : DistData
  | bcast (buf : Buf) : DistData
deriving DecidableEq

/-- One rank's arguments to a `distribute` call. -/
structure DistArgs where
  destination : List Nat
  data : DistData
deriving DecidableEq

instance : Inhabited DistArgs := ⟨⟨[], DistData.bcast []⟩⟩

/-- The mutable state of one Router object: the communicator size and the
two scratch vectors allocated in `__init__` (router.py lines 45-51). -/
structure RouterState where
  P : Nat
  destination_count : List Nat
  source_count : List Nat
deriving DecidableEq

/-- `Router.__init__`: both scratch vectors are zero vectors of length
`comm.Get_size()` (router.py lines 49-51). -/
def Router.init (P : Nat) : RouterState :=
  ⟨P, List.replicate P 0, List.replicate P 0⟩

/-- Well-formedness: the scratch vectors have length P, as `__init__`
establishes and every method preserves. -/
def RouterState.wf (st : RouterState) : Prop :=
  st.destination_count.length = st.P ∧ st.source_count.length = st.P

deriving instance DecidableEq for Except

/-- Python exceptions that the Router code can raise. -/
inductive PyError where
  | valueError (msg : String) : PyError
  | nameError (msg : String) : PyError
  | typeError (msg : String) : PyError
  | indexError (msg : String) : PyError
deriving DecidableEq

/-- Communication events, in the order the code issues them. -/
inductive Event where
  | alltoall : Event
  | allgather : Event
  | gatherv : Event
  | scatterv : Event
  | irecv (source : Nat) (tag : Int) : Event
  | isend (dest : Nat) (size : Nat) (tag : Int) : Event
  | waitSend (dest : Nat) : Event
  | waitRecv (source : Nat) : Event
deriving DecidableEq

/-- The count-fill step of `send_recv` (router.py lines 139-147):
`self.destination_count[:] = 0`, then, for a list payload, set
`destination_count[dest] = data[dest_ind].size` for each destination in
order (later duplicates overwrite earlier entries), and for a single
ndarray payload set every listed entry to `data.size`. -/
def fillCounts (v : List Nat) (destination : List Nat) (data : DistData) :
    List Nat :=
  let v0 := v.map (fun _ => 0)
  match data with
  | DistData.perDest bufs =>
      (destination.zip bufs).foldl (fun a p => a.set p.1 p.2.length) v0
  | DistData.bcast buf =>
      destination.foldl (fun a d => a.set d buf.length) v0

/-- The destination-count vector rank r computes in its own `send_recv`
call, starting from a well-formed scratch vector. -/
def destCountAt (P : Nat) (args : Nat → DistArgs) (r : Nat) : List Nat :=
  fillCounts (List.replicate P 0) (args r).destination (args r).data

/-- The `source_count` vector rank q obtains from the `Alltoall` at
router.py line 153: entry r is rank r's `destination_count[q]`. -/
def sourceCountAt (P : Nat) (args : Nat → DistArgs) (q : Nat) : List Nat :=
  (List.range P).map (fun r => (destCountAt P args r).getD q 0)

/-- The (destination, payload) pairs rank r's send loop iterates over
(router.py lines 174-183): the zip of destinations with the payload list,
or each destination paired with the one broadcast payload. -/
def sendPairs (a : DistArgs) : List (Nat × Buf) :=
  match a.data with
  | DistData.perDest bufs => a.destination.zip bufs
  | DistData.bcast buf => a.destination.map (fun d => (d, buf))

/-- The ordered list of messages rank s sends to rank q in one
`distribute` round. -/
def messagesTo (args : Nat → DistArgs) (s q : Nat) : List Buf :=
  (sendPairs (args s)).filterMap
    (fun p => if p.1 = q then some p.2 else none)

/-- The buffer rank q's `Irecv` for source s delivers: the buffer is
allocated as `np.zeros(source_count[s])` (router.py lines 159-161) and the
first matching message from s is written into its front. -/
def recvFrom (sc : List Nat) (args : Nat → DistArgs) (q s : Nat) : Buf :=
  let n := sc.getD s 0
  let msg := (messagesTo args s q).headD []
  msg.take n ++ List.replicate (n - msg.length) 0

/-- `sources = np.where(self.source_count != 0)[0]` (router.py line 154):
the ranks with a nonzero entry, in ascending order. -/
def sourcesAt (P : Nat) (args : Nat → DistArgs) (q : Nat) : List Nat :=
  (List.range P).filter (fun r => (sourceCountAt P args q).getD r 0 ≠ 0)

/-- The pair `(sources, recvbuff)` rank q returns from `send_recv`
(router.py line 189), for a well-formed router. -/
def distributeAt (P : Nat) (args : Nat → DistArgs) (q : Nat) :
    List Nat × List Buf :=
  (sourcesAt P args q, (sourcesAt P args q).map (fun s => recvFrom (sourceCountAt P args q) args q s))

/-- The send phase of `send_recv` (router.py lines 174-183): for each
destination in the order given, one `Isend` of the flattened payload
immediately followed by its `wait`. -/
def sendPhaseTrace (a : DistArgs) (tag : Int) : List Event :=
  match a.data with
  | DistData.perDest bufs =>
      (a.destination.zip bufs).flatMap
        (fun p => [Event.isend p.1 p.2.length tag, Event.waitSend p.1])
  | DistData.bcast buf =>
      a.destination.flatMap
        (fun d => [Event.isend d buf.length tag, Event.waitSend d])

/-- `Router.send_recv` (router.py lines 90-189), rank q's view of the
collective round described by `args`.  Returns the new router state, the
`(sources, recvbuff)` result, and the trace of communication events:
the count `Alltoall`, then every `Irecv` posted (one per active source,
ascending), then the send loop (each send waited on before the next), and
finally the waits on all posted receives.  Peer ranks are assumed to run
the same code on well-formed routers, so their `Alltoall` contribution is
the canonical `destCountAt`; rank q's own contribution is its local fill. -/
def send_recv (st : RouterState) (args : Nat → DistArgs) (q : Nat) (tag : Int) :
    RouterState × (List Nat × List Buf) × List Event :=
  let dc := fillCounts st.destination_count (args q).destination (args q).data
  let sc := (List.range st.P).map
    (fun r => if r = q then dc.getD q 0 else (destCountAt st.P args r).getD q 0)
  let sources := (List.range st.P).filter (fun r => sc.getD r 0 ≠ 0)
  let recvbuff := sources.map (fun s => recvFrom sc args q s)
  let tr := Event.alltoall ::
    (sources.map (fun s => Event.irecv s tag)
      ++ sendPhaseTrace (args q) tag
      ++ sources.map (fun s => Event.waitRecv s))
  (⟨st.P, dc, sc⟩, (sources, recvbuff), tr)

/-- `Router.gather_in_root` (router.py lines 191-237), rank q's view of
the collective where `allData` gives every rank's local flat buffer.
`sendcounts` is the allgather of every rank's `data.size` (line 227); the
root allocates `np.empty(sum(sendcounts))` and `Gatherv` writes rank r's
buffer at the prefix-sum offset of the counts, i.e. the root obtains the
rank-ordered concatenation; non-root ranks keep `recvbuf = None`
(lines 229-235).  The router scratch vectors are never touched. -/
def gather_in_root (st : RouterState) (allData : Nat → Buf) (root q : Nat) :
    RouterState × (Option Buf × List Nat) × List Event :=
  let sendcounts := (List.range st.P).map (fun r => (allData r).length)
  let recvbuf : Option Buf :=
    if q = root then
      some ((List.range st.P).flatMap (fun r => (allData r).take (sendcounts.getD r 0)))
    else none
  (st, (recvbuf, sendcounts), [Event.allgather, Event.gatherv])

/-- `Router.scatter_from_root` (router.py lines 239-292), rank q's view of
the collective in which the root holds `rootData` and every rank passes the
same `sendcounts` argument (the caller contract: the count table must be
identically known everywhere).  Lines 276-284: only the root substitutes
the equal-division default `data.size // P` for a missing count table, so a
non-root rank with `sendcounts=None` still holds `None` when line 288
evaluates `sendcounts[rank]` and raises a TypeError before any
communication.  On success the rank allocates `np.ones(sendcounts[rank]) * -100`
and `Scatterv` fills it with its slice of the root's flattened buffer at
the prefix-sum offset of the root's count table.  The router scratch
vectors are never touched. -/
def defaultCounts (st : RouterState) (rootData : Buf)
    (sendcounts : Option (List Nat)) : List Nat :=
  match sendcounts with
  | none => List.replicate st.P (rootData.length / st.P)
  | some s => s

/-- See the comment above `defaultCounts`: the full per-rank view of
`scatter_from_root`, with `defaultCounts` the equal-division substitution
of lines 277-280 (applied only in the root branch for the local count,
but defining the partition the root's `Scatterv` uses). -/
def scatter_from_root (st : RouterState) (rootData : Buf)
    (sendcounts : Option (List Nat)) (root q : Nat) :
    RouterState × Except PyError Buf × List Event :=
  (st,
    let scLocal : Option (List Nat) :=
      if q = root then some (defaultCounts st rootData sendcounts)
      else sendcounts
    match scLocal with
    | none =>
        (Except.error (PyError.typeError "NoneType object is not subscriptable"), [])
    | some s =>
        if h : q < s.length then
          let n := s.get ⟨q, h⟩
          let rootCounts : List Nat := defaultCounts st rootData sendcounts
          let msg := (rootData.drop ((rootCounts.take q).sum)).take (rootCounts.getD q 0)
          (Except.ok (msg.take n ++ List.replicate (n - msg.length) (-100)),
            [Event.scatterv])
        else
          (Except.error (PyError.indexError "index out of bounds"), []))

/-- The arguments a caller hands to `route_data` for one of the three
patterns, bundled with the global view our collective model needs.
Route outputs derive decidable equality so witnesses can be settled by
evaluation. -/
inductive RouteCall where
  | distribute (args : Nat → DistArgs) (tag : Int) : RouteCall
  | gather (allData : Nat → Buf) (root : Nat) : RouteCall
  | scatter (rootData : Buf) (sendcounts : Option (List Nat)) (root : Nat) : RouteCall

/-- The result of a successful `route_data` dispatch. -/
inductive RouteOutput where
  | distributed (sources : List Nat) (recvbuff : List Buf) : RouteOutput
  | gathered (recvbuf : Option Buf) (sendcounts : List Nat) : RouteOutput
  | scattered (recvbuf : Buf) : RouteOutput
deriving DecidableEq

/-- `Router.route_data` (router.py lines 53-88): look the keyword up in the
factory dict over the keys distribute / gather / scatter and dispatch; for
any other keyword the code executes
`raise ValueError(f"Method ... not recognized.")` whose f-string names
`method_keyword`, a variable that does not exist, so Python raises a
NameError while building the message — before any communication and
without touching the router state.  A keyword whose kwargs do not match
the dispatched method is a Python TypeError at the call. -/
def route_data (st : RouterState) (keyword : String) (call : RouteCall)
    (q : Nat) : RouterState × Except PyError RouteOutput × List Event :=
  if keyword = "distribute" ∨ keyword = "gather" ∨ keyword = "scatter" then
    match keyword, call with
    | "distribute", RouteCall.distribute args tag =>
        let r := send_recv st args q tag
        (r.1, Except.ok (RouteOutput.distributed r.2.1.1 r.2.1.2), r.2.2)
    | "gather", RouteCall.gather allData root =>
        let r := gather_in_root st allData root q
        (r.1, Except.ok (RouteOutput.gathered r.2.1.1 r.2.1.2), r.2.2)
    | "scatter", RouteCall.scatter rootData sendcounts root =>
        let r := scatter_from_root st rootData sendcounts root q
        (r.1,
          match r.2.1 with
          | Except.ok b => Except.ok (RouteOutput.scattered b)
          | Except.error e => Except.error e,
          r.2.2)
    | _, _ =>
        (st, Except.error (PyError.typeError "unexpected keyword arguments"), [])
  else
    (st, Except.error (PyError.nameError "name method_keyword is not defined"), [])

/-- Total number of elements rank s sends to rank q in one round. -/
def sentTo (args : Nat → DistArgs) (s q : Nat) : Nat :=
  ((messagesTo args s q).map List.length).sum

/-- The single step of the count-fill fold. -/
def setStep (a : List Nat) (p : Nat × Buf) : List Nat :=
  a.set p.1 p.2.length

lemma foldl_setStep_length (l : List (Nat × Buf)) (acc : List Nat) :
    (l.foldl setStep acc).length = acc.length := by
  induction l generalizing acc with
  | nil => rfl
  | cons p t ih =>
      simp only [List.foldl_cons, ih, setStep, List.length_set]

lemma fillCounts_sendPairs (v : List Nat) (a : DistArgs) :
    fillCounts v a.destination a.data =
      (sendPairs a).foldl setStep (v.map (fun _ => 0)) := by
  cases h : a.data with
  | perDest bufs =>
      simp only [fillCounts, sendPairs, h]
      rfl
  | bcast buf =>
      simp only [fillCounts, sendPairs, h, List.foldl_map]
      rfl

lemma map_zero_eq_replicate (v : List Nat) :
    v.map (fun _ => (0 : Nat)) = List.replicate v.length 0 := by
  induction v with
  | nil => rfl
  | cons x t ih => simp [List.replicate_succ, ih]

lemma fillCounts_congr (v w : List Nat) (d : List Nat) (dat : DistData)
    (h : v.length = w.length) :
    fillCounts v d dat = fillCounts w d dat := by
  have hv : v.map (fun _ => (0 : Nat)) = w.map (fun _ => (0 : Nat)) := by
    rw [map_zero_eq_replicate, map_zero_eq_replicate, h]
  cases dat with
  | perDest bufs => simp only [fillCounts, hv]
  | bcast buf => simp only [fillCounts, hv]

lemma length_fillCounts (v : List Nat) (d : List Nat) (dat : DistData) :
    (fillCounts v d dat).length = v.length := by
  have h := fillCounts_sendPairs v ⟨d, dat⟩
  simp only at h
  rw [h, foldl_setStep_length, List.length_map]

lemma foldl_setStep_getD_of_not_mem (l : List (Nat × Buf)) (acc : List Nat)
    (r : Nat) (h : ∀ p ∈ l, p.1 ≠ r) :
    (l.foldl setStep acc).getD r 0 = acc.getD r 0 := by
  induction l generalizing acc with
  | nil => rfl
  | cons p t ih =>
      have hp : p.1 ≠ r := h p (by simp)
      have ht : ∀ p2 ∈ t, p2.1 ≠ r := fun p2 hm => h p2 (by simp [hm])
      rw [List.foldl_cons, ih _ ht]
      simp only [setStep]
      rw [List.getD_eq_getElem?_getD, List.getElem?_set_ne hp,
        ← List.getD_eq_getElem?_getD]

lemma getD_set_self (l : List Nat) (r : Nat) (x : Nat) (h : r < l.length) :
    (l.set r x).getD r 0 = x := by
  rw [List.getD_eq_getElem?_getD, List.getElem?_set_self h]
  rfl

/-- Last write wins: if the pair at the split point writes index r and no
later pair touches r, the fold ends with that write's value at r. -/
lemma foldl_setStep_last (l1 l2 : List (Nat × Buf)) (acc : List Nat)
    (r : Nat) (b : Buf) (hr : r < acc.length)
    (h2 : ∀ p ∈ l2, p.1 ≠ r) :
    ((l1 ++ (r, b) :: l2).foldl setStep acc).getD r 0 = b.length := by
  rw [List.foldl_append, List.foldl_cons,
    foldl_setStep_getD_of_not_mem _ _ _ h2]
  have hlen : r < (l1.foldl setStep acc).length := by
    rw [foldl_setStep_length]; exact hr
  exact getD_set_self _ _ _ hlen

lemma filterMap_pick_eq_nil (l : List (Nat × Buf)) (q : Nat)
    (h : ∀ p ∈ l, p.1 ≠ q) :
    l.filterMap (fun p => if p.1 = q then some p.2 else none) = [] := by
  induction l with
  | nil => rfl
  | cons p t ih =>
      have hp : p.1 ≠ q := h p (by simp)
      have ht : ∀ p2 ∈ t, p2.1 ≠ q := fun p2 hm => h p2 (by simp [hm])
      simp [List.filterMap_cons, hp, ih ht]

/-- For a duplicate-free pair list, the final count at index q is the total
length of the payloads paired with q (zero or one of them). -/
lemma foldl_setStep_getD_eq_sent (P : Nat) (l : List (Nat × Buf)) (q : Nat)
    (hnd : (l.map Prod.fst).Nodup) (hv : ∀ p ∈ l, p.1 < P) :
    (l.foldl setStep (List.replicate P 0)).getD q 0 =
      ((l.filterMap (fun p => if p.1 = q then some p.2 else none)).map
        List.length).sum := by
  induction l using List.reverseRecOn with
  | nil => simp
  | append_singleton t p ih =>
      rw [List.map_append] at hnd
      have hnd2 : (t.map Prod.fst).Nodup := List.Nodup.of_append_left hnd
      have hv2 : ∀ p2 ∈ t, p2.1 < P := fun p2 hm => hv p2 (by simp [hm])
      by_cases hq : p.1 = q
      · have hnotin : ∀ p2 ∈ t, p2.1 ≠ q := by
          intro p2 hm
          intro hcon
          have hdisj := (List.nodup_append.mp hnd).2.2
          exact hdisj (a := q)
            (by rw [← hcon]; exact List.mem_map_of_mem Prod.fst hm)
            (by rw [← hq]; simp)
        rw [List.foldl_append, List.foldl_cons, List.foldl_nil]
        have hlen : q < (t.foldl setStep (List.replicate P 0)).length := by
          rw [foldl_setStep_length, List.length_replicate]
          rw [← hq]; exact hv p (by simp)
        simp only [setStep, hq]
        rw [getD_set_self _ _ _ hlen]
        rw [List.filterMap_append, filterMap_pick_eq_nil _ _ hnotin]
        simp [hq]
      · rw [List.foldl_append, List.foldl_cons, List.foldl_nil]
        simp only [setStep]
        rw [List.getD_eq_getElem?_getD, List.getElem?_set_ne hq,
          ← List.getD_eq_getElem?_getD, ih hnd2 hv2]
        rw [List.filterMap_append]
        simp [hq]

/-- The payload list is long enough for the destination list (a shorter
list payload raises an IndexError in the Python send loop, line 144). -/
def lenMatch : DistArgs → Prop
  | ⟨dest, DistData.perDest bufs⟩ => dest.length ≤ bufs.length
  | ⟨_, DistData.bcast _⟩ => True

instance : (a : DistArgs) → Decidable (lenMatch a)
  | ⟨dest, DistData.perDest bufs⟩ =>
      inferInstanceAs (Decidable (dest.length ≤ bufs.length))
  | ⟨_, DistData.bcast _⟩ => inferInstanceAs (Decidable True)

/-- A valid `distribute` argument set for one rank: destination ranks are
in range, not duplicated, and the payload list is long enough. -/
def ValidArgs (P : Nat) (a : DistArgs) : Prop :=
  a.destination.Nodup ∧ (∀ d ∈ a.destination, d < P) ∧ lenMatch a

instance (P : Nat) (a : DistArgs) : Decidable (ValidArgs P a) :=
  inferInstanceAs
    (Decidable (a.destination.Nodup ∧ (∀ d ∈ a.destination, d < P) ∧ lenMatch a))

lemma map_fst_map_pair (l : List Nat) (b : Buf) :
    (l.map (fun d => (d, b))).map Prod.fst = l := by
  induction l with
  | nil => rfl
  | cons x t ih => simp only [List.map_cons, ih]

lemma map_fst_sendPairs (a : DistArgs) (h : lenMatch a) :
    (sendPairs a).map Prod.fst = a.destination := by
  obtain ⟨dest, dat⟩ := a
  cases dat with
  | perDest bufs =>
      have hlen : dest.length ≤ bufs.length := h
      simp [sendPairs, List.map_fst_zip _ _ hlen]
  | bcast buf =>
      simp only [sendPairs]
      exact map_fst_map_pair dest buf

lemma mem_sendPairs_fst (a : DistArgs) (p : Nat × Buf)
    (h : p ∈ sendPairs a) : p.1 ∈ a.destination := by
  cases hd : a.data with
  | perDest bufs =>
      rw [sendPairs, hd] at h
      exact (List.of_mem_zip h).1
  | bcast buf =>
      rw [sendPairs, hd] at h
      obtain ⟨d, hd2, he⟩ := List.mem_map.mp h
      rw [← he]
      exact hd2

/-- Round-trip size correctness at the count level: for a valid argument
set, rank s's count-table entry for rank q is exactly the number of
elements s sends to q. -/
lemma destCountAt_getD_eq_sentTo (P : Nat) (args : Nat → DistArgs)
    (s q : Nat) (h : ValidArgs P (args s)) :
    (destCountAt P args s).getD q 0 = sentTo args s q := by
  have hfill := fillCounts_sendPairs (List.replicate P 0) (args s)
  have hmap : (List.replicate P (0 : Nat)).map (fun _ => (0 : Nat))
      = List.replicate P 0 := by
    rw [map_zero_eq_replicate, List.length_replicate]
  rw [destCountAt, hfill, hmap]
  have hnd : ((sendPairs (args s)).map Prod.fst).Nodup := by
    rw [map_fst_sendPairs _ h.2.2]; exact h.1
  have hv : ∀ p ∈ sendPairs (args s), p.1 < P := fun p hp =>
    h.2.1 p.1 (mem_sendPairs_fst _ p hp)
  rw [foldl_setStep_getD_eq_sent P _ q hnd hv]
  rfl

lemma sourceCountAt_getD (P : Nat) (args : Nat → DistArgs) (q s : Nat)
    (hs : s < P) :
    (sourceCountAt P args q).getD s 0 = (destCountAt P args s).getD q 0 := by
  rw [sourceCountAt, List.getD_eq_getElem?_getD, List.getElem?_map,
    List.getElem?_range hs]
  rfl

lemma length_recvFrom (sc : List Nat) (args : Nat → DistArgs) (q s : Nat) :
    (recvFrom sc args q s).length = sc.getD s 0 := by
  simp only [recvFrom, List.length_append, List.length_take,
    List.length_replicate]
  omega

lemma sourcesAt_pairwise (P : Nat) (args : Nat → DistArgs) (q : Nat) :
    (sourcesAt P args q).Pairwise (· < ·) :=
  List.Pairwise.filter _ (List.pairwise_lt_range P)

lemma mem_sourcesAt_lt (P : Nat) (args : Nat → DistArgs) (q s : Nat)
    (h : s ∈ sourcesAt P args q) : s < P := by
  rw [sourcesAt] at h
  exact List.mem_range.mp (List.mem_of_mem_filter h)

/-- For a well-formed router, `send_recv` returns the canonical per-rank
view of the collective round. -/
lemma send_recv_eq_distributeAt (st : RouterState) (args : Nat → DistArgs)
    (q : Nat) (tag : Int) (hwf : st.wf) :
    (send_recv st args q tag).2.1 = distributeAt st.P args q := by
  have hdc : fillCounts st.destination_count (args q).destination (args q).data
      = destCountAt st.P args q := by
    apply fillCounts_congr
    rw [hwf.1, List.length_replicate]
  have hsc : (List.range st.P).map
      (fun r => if r = q then
        (fillCounts st.destination_count (args q).destination (args q).data).getD q 0
      else (destCountAt st.P args r).getD q 0)
      = sourceCountAt st.P args q := by
    apply List.map_congr_left
    intro r _
    by_cases h : r = q
    · subst h; rw [hdc]; simp
    · simp [h]
  simp only [send_recv, distributeAt, sourcesAt]
  rw [hsc]

/-- And the router state after a well-formed `send_recv` call. -/
lemma send_recv_state (st : RouterState) (args : Nat → DistArgs)
    (q : Nat) (tag : Int) (hwf : st.wf) :
    (send_recv st args q tag).1 =
      ⟨st.P, destCountAt st.P args q, sourceCountAt st.P args q⟩ := by
  have hdc : fillCounts st.destination_count (args q).destination (args q).data
      = destCountAt st.P args q := by
    apply fillCounts_congr
    rw [hwf.1, List.length_replicate]
  have hsc : (List.range st.P).map
      (fun r => if r = q then
        (fillCounts st.destination_count (args q).destination (args q).data).getD q 0
      else (destCountAt st.P args r).getD q 0)
      = sourceCountAt st.P args q := by
    apply List.map_congr_left
    intro r _
    by_cases h : r = q
    · subst h; rw [hdc]; simp
    · simp [h]
  simp only [send_recv]
  rw [hsc, hdc]

/-- Concrete two-rank round used by the witnesses: rank 0 sends three
elements to rank 1; rank 1 sends one element to rank 0 and two to itself. -/
def exampleArgs : Nat → DistArgs := fun s =>
  if s = 0 then ⟨[1], DistData.perDest [[10, 20, 30]]⟩
  else ⟨[0, 1], DistData.perDest [[5], [7, 8]]⟩

/-- C1: a `distribute` call (`send_recv`) on a well-formed router with
valid arguments returns parallel sequences `(sources, recvbuff)`: the
sources are in strictly ascending rank order, the buffer list has one
entry per source, and the buffer paired with source s has exactly as many
elements as rank s sent to this rank. -/
theorem distribute_sorted_sources_and_sizes
    (st : RouterState) (args : Nat → DistArgs) (q : Nat) (tag : Int)
    (i : Nat) (hwf : st.wf)
    (hvalid : ∀ s, s < st.P → ValidArgs st.P (args s))
    (hi : i < ((send_recv st args q tag).2.1.1).length) :
    ((send_recv st args q tag).2.1.1).Pairwise (· < ·) ∧
    ((send_recv st args q tag).2.1.2).length
      = ((send_recv st args q tag).2.1.1).length ∧
    (((send_recv st args q tag).2.1.2).getD i []).length
      = sentTo args (((send_recv st args q tag).2.1.1).getD i 0) q := by
  have hb := send_recv_eq_distributeAt st args q tag hwf
  have h1 : (send_recv st args q tag).2.1.1 = sourcesAt st.P args q := by
    rw [hb]; rfl
  have h2 : (send_recv st args q tag).2.1.2
      = (sourcesAt st.P args q).map
          (fun s => recvFrom (sourceCountAt st.P args q) args q s) := by
    rw [hb]; rfl
  rw [h1, h2]
  rw [h1] at hi
  refine ⟨sourcesAt_pairwise _ _ _, by rw [List.length_map], ?_⟩
  have hgetd : ((sourcesAt st.P args q).map
        (fun s => recvFrom (sourceCountAt st.P args q) args q s)).getD i []
      = recvFrom (sourceCountAt st.P args q) args q
          ((sourcesAt st.P args q).getD i 0) := by
    rw [List.getD_eq_getElem?_getD, List.getElem?_map,
      List.getElem?_eq_getElem hi, List.getD_eq_getElem?_getD,
      List.getElem?_eq_getElem hi]
    rfl
  rw [hgetd, length_recvFrom]
  have hsmem : (sourcesAt st.P args q).getD i 0 ∈ sourcesAt st.P args q := by
    rw [List.getD_eq_getElem?_getD, List.getElem?_eq_getElem hi]
    exact List.getElem_mem hi
  have hsP : (sourcesAt st.P args q).getD i 0 < st.P :=
    mem_sourcesAt_lt _ _ _ _ hsmem
  rw [sourceCountAt_getD _ _ _ _ hsP]
  exact destCountAt_getD_eq_sentTo _ _ _ _ (hvalid _ hsP)

/-- Witness for C1 at the concrete example, rank 1, first source. -/
theorem distribute_sorted_sources_and_sizes_witness :
    ((send_recv (Router.init 2) exampleArgs 1 0).2.1.1).Pairwise (· < ·) ∧
    ((send_recv (Router.init 2) exampleArgs 1 0).2.1.2).length
      = ((send_recv (Router.init 2) exampleArgs 1 0).2.1.1).length ∧
    (((send_recv (Router.init 2) exampleArgs 1 0).2.1.2).getD 0 []).length
      = sentTo exampleArgs
          (((send_recv (Router.init 2) exampleArgs 1 0).2.1.1).getD 0 0) 1 :=
  distribute_sorted_sources_and_sizes (Router.init 2) exampleArgs 1 0 0
    (by constructor <;> rfl)
    (by
      intro s hs
      have hs2 : s < 2 := hs
      interval_cases s <;> decide)
    (by decide)

lemma destCountAt_length (P : Nat) (args : Nat → DistArgs) (r : Nat) :
    (destCountAt P args r).length = P := by
  rw [destCountAt, length_fillCounts, List.length_replicate]

lemma sourceCountAt_length (P : Nat) (args : Nat → DistArgs) (q : Nat) :
    (sourceCountAt P args q).length = P := by
  rw [sourceCountAt, List.length_map, List.length_range]

/-- `send_recv` preserves well-formedness of the router state. -/
lemma send_recv_wf (st : RouterState) (args : Nat → DistArgs) (q : Nat)
    (tag : Int) (hwf : st.wf) : ((send_recv st args q tag).1).wf := by
  rw [send_recv_state st args q tag hwf]
  exact ⟨destCountAt_length _ _ _, sourceCountAt_length _ _ _⟩

/-- C7: invoking `distribute` twice on the same router with identical
destination and payload arguments (tags may differ) yields the identical
source list and identical per-source receive sizes both times, and the
second call leaves the router state exactly where the first left it: the
scratch vectors are re-zeroed at the start of every call, so no state
carries over. -/
theorem distribute_twice_same_counts
    (st : RouterState) (args : Nat → DistArgs) (q : Nat) (tag1 tag2 : Int)
    (hwf : st.wf) :
    (send_recv (send_recv st args q tag1).1 args q tag2).2.1.1
      = (send_recv st args q tag1).2.1.1 ∧
    ((send_recv (send_recv st args q tag1).1 args q tag2).2.1.2).map
        List.length
      = ((send_recv st args q tag1).2.1.2).map List.length ∧
    (send_recv (send_recv st args q tag1).1 args q tag2).1
      = (send_recv st args q tag1).1 := by
  have hwf1 := send_recv_wf st args q tag1 hwf
  have hP : ((send_recv st args q tag1).1).P = st.P := by
    rw [send_recv_state st args q tag1 hwf]
  have h1 := send_recv_eq_distributeAt st args q tag1 hwf
  have h2 := send_recv_eq_distributeAt _ args q tag2 hwf1
  have hs1 := send_recv_state st args q tag1 hwf
  have hs2 := send_recv_state _ args q tag2 hwf1
  rw [hP] at h2 hs2
  refine ⟨?_, ?_, ?_⟩
  · have e1 : (send_recv (send_recv st args q tag1).1 args q tag2).2.1
        = (send_recv st args q tag1).2.1 := by rw [h1, h2]
    rw [e1]
  · have e1 : (send_recv (send_recv st args q tag1).1 args q tag2).2.1
        = (send_recv st args q tag1).2.1 := by rw [h1, h2]
    rw [e1]
  · rw [hs2, hs1]

/-- Witness for C7 at the concrete example round used for C1. -/
theorem distribute_twice_same_counts_witness :
    (send_recv (send_recv (Router.init 2) exampleArgs 1 3).1 exampleArgs 1 7).2.1.1
      = (send_recv (Router.init 2) exampleArgs 1 3).2.1.1 ∧
    ((send_recv (send_recv (Router.init 2) exampleArgs 1 3).1 exampleArgs 1 7).2.1.2).map
        List.length
      = ((send_recv (Router.init 2) exampleArgs 1 3).2.1.2).map List.length ∧
    (send_recv (send_recv (Router.init 2) exampleArgs 1 3).1 exampleArgs 1 7).1
      = (send_recv (Router.init 2) exampleArgs 1 3).1 :=
  distribute_twice_same_counts (Router.init 2) exampleArgs 1 3 7
    (by constructor <;> rfl)

/-- C10: `gather_in_root` and `scatter_from_root` leave the router state —
in particular both scratch vectors `destination_count` and `source_count` —
completely unchanged; of the three public patterns only `send_recv`
writes to them. -/
theorem gather_scatter_leave_counts_unchanged
    (st : RouterState) (allData : Nat → Buf) (rootData : Buf)
    (sendcounts : Option (List Nat)) (root q : Nat) :
    (gather_in_root st allData root q).1 = st ∧
    (scatter_from_root st rootData sendcounts root q).1 = st :=
  ⟨rfl, rfl⟩

/-- C2 (against the code as written): for a keyword that is none of
distribute / gather / scatter, `route_data` returns an error immediately,
with no communication event and the router state untouched — but the
error is a NameError, because the f-string of the intended
`ValueError(f"Method ... not recognized.")` references the undefined
variable `method_keyword` (router.py line 86) instead of `keyword`. -/
theorem route_data_unrecognized_keyword
    (st : RouterState) (keyword : String) (call : RouteCall) (q : Nat)
    (h1 : keyword ≠ "distribute") (h2 : keyword ≠ "gather")
    (h3 : keyword ≠ "scatter") :
    route_data st keyword call q
      = (st, Except.error (PyError.nameError "name method_keyword is not defined"),
          []) := by
  simp [route_data, h1, h2, h3]

/-- Witness for C2 at a concrete unrecognized keyword. -/
theorem route_data_unrecognized_keyword_witness :
    route_data (Router.init 4) "alltoall"
        (RouteCall.scatter [] none 0) 0
      = (Router.init 4,
          Except.error (PyError.nameError "name method_keyword is not defined"),
          []) :=
  route_data_unrecognized_keyword (Router.init 4) "alltoall"
    (RouteCall.scatter [] none 0) 0
    (by decide) (by decide) (by decide)

/-- The ten-element root buffer of the scatter examples. -/
def tenBuf : Buf := [0, 1, 2, 3, 4, 5, 6, 7, 8, 9]

/-- C3 (against the code as written): scattering 10 elements over 4 ranks
with no explicit count table.  The root (rank 0) does receive
`10 // 4 = 2` elements, but every non-root rank raises a TypeError before
any communication: the equal-division default is computed only inside the
root branch (router.py lines 276-280), so at line 288 a non-root rank
subscripts `None`. -/
theorem scatter_default_counts_root_only
    : (scatter_from_root (Router.init 4) tenBuf none 0 0).2.1
        = Except.ok [0, 1] ∧
      (scatter_from_root (Router.init 4) tenBuf none 0 1).2.1
        = Except.error (PyError.typeError "NoneType object is not subscriptable") ∧
      (scatter_from_root (Router.init 4) tenBuf none 0 1).2.2 = [] := by
  decide

lemma getD_replicate_zero (P x : Nat) :
    (List.replicate P (0 : Nat)).getD x 0 = 0 := by
  rw [List.getD_eq_getElem?_getD, List.getElem?_replicate]
  rcases Nat.lt_or_ge x P with h | h
  · simp [h]
  · simp [Nat.not_lt.mpr h]

/-- C8: after the count-fill step with a per-destination payload list, the
entry for a rank r listed in the destination list is the element count of
the payload paired with the LAST occurrence of r (later occurrences
silently overwrite earlier ones), and the entry of an unlisted rank is 0. -/
theorem count_fill_last_occurrence_wins
    (P : Nat) (dests : List Nat) (bufs : List Buf) (r r2 i : Nat)
    (hle : dests.length ≤ bufs.length)
    (hvalid : ∀ d ∈ dests, d < P)
    (hi : i < dests.length)
    (hir : dests.get ⟨i, hi⟩ = r)
    (hlast : ∀ j, (hj : j < dests.length) → i < j → dests.get ⟨j, hj⟩ ≠ r)
    (hnot : r2 ∉ dests) :
    (fillCounts (List.replicate P 0) dests (DistData.perDest bufs)).getD r 0
      = (bufs.getD i []).length ∧
    (fillCounts (List.replicate P 0) dests (DistData.perDest bufs)).getD r2 0
      = 0 := by
  have hfill :=
    fillCounts_sendPairs (List.replicate P 0) ⟨dests, DistData.perDest bufs⟩
  simp only [sendPairs] at hfill
  have hmap : (List.replicate P (0 : Nat)).map (fun _ => (0 : Nat))
      = List.replicate P 0 := by
    rw [map_zero_eq_replicate, List.length_replicate]
  rw [hmap] at hfill
  have hziplen : (dests.zip bufs).length = dests.length := by
    rw [List.length_zip]; omega
  have hib : i < bufs.length := lt_of_lt_of_le hi hle
  have hiz : i < (dests.zip bufs).length := by rw [hziplen]; exact hi
  constructor
  · -- split the pair list at the last occurrence of r
    have hzi : (dests.zip bufs)[i]? = some (r, bufs.get ⟨i, hib⟩) := by
      rw [List.getElem?_zip_eq_some]
      constructor
      · rw [List.getElem?_eq_getElem hi]
        rw [← hir]
        rfl
      · rw [List.getElem?_eq_getElem hib]
        rfl
    have hsplit : dests.zip bufs
        = (dests.zip bufs).take i
            ++ (r, bufs.get ⟨i, hib⟩) :: (dests.zip bufs).drop (i + 1) := by
      conv_lhs => rw [← List.take_append_drop (i + 1) (dests.zip bufs)]
      rw [List.take_succ, hzi]
      simp
    have hdrop : ∀ p ∈ (dests.zip bufs).drop (i + 1), p.1 ≠ r := by
      intro p hp
      obtain ⟨k, hk, he⟩ := List.getElem_of_mem hp
      rw [List.getElem_drop] at he
      have hk2 : i + 1 + k < (dests.zip bufs).length := by
        rw [List.length_drop] at hk
        omega
      have hk3 : i + 1 + k < dests.length := by rw [← hziplen]; exact hk2
      have hz2 : (dests.zip bufs)[i + 1 + k]? = some p := by
        rw [List.getElem?_eq_getElem hk2, he]
      rw [List.getElem?_zip_eq_some] at hz2
      have hd := hz2.1
      rw [List.getElem?_eq_getElem hk3] at hd
      have : dests.get ⟨i + 1 + k, hk3⟩ = p.1 := by
        injection hd
      rw [← this]
      exact hlast (i + 1 + k) hk3 (by omega)
    have hr : r < P := by
      apply hvalid
      rw [← hir]
      exact List.get_mem dests i hi
    have hrlen : r < (List.replicate P (0 : Nat)).length := by
      rw [List.length_replicate]; exact hr
    rw [hfill, hsplit, foldl_setStep_last _ _ _ _ _ hrlen hdrop]
    rw [List.getD_eq_getElem?_getD, List.getElem?_eq_getElem hib]
    rfl
  · have hall : ∀ p ∈ dests.zip bufs, p.1 ≠ r2 := by
      intro p hp hc
      apply hnot
      rw [← hc]
      obtain ⟨a, b⟩ := p
      exact (List.of_mem_zip hp).1
    rw [hfill, foldl_setStep_getD_of_not_mem _ _ _ hall, getD_replicate_zero]

/-- Witness for C8: destinations [1, 2, 1] with payload sizes [5, 3, 2];
the entry for rank 1 is 2 (the last occurrence), rank 3 is unlisted. -/
theorem count_fill_last_occurrence_wins_witness :
    (fillCounts (List.replicate 4 0) [1, 2, 1]
        (DistData.perDest [[1, 2, 3, 4, 5], [6, 7, 8], [9, 10]])).getD 1 0
      = (([[1, 2, 3, 4, 5], [6, 7, 8], [9, 10]] : List Buf).getD 2 []).length ∧
    (fillCounts (List.replicate 4 0) [1, 2, 1]
        (DistData.perDest [[1, 2, 3, 4, 5], [6, 7, 8], [9, 10]])).getD 3 0
      = 0 :=
  count_fill_last_occurrence_wins 4 [1, 2, 1]
    [[1, 2, 3, 4, 5], [6, 7, 8], [9, 10]] 1 3 2
    (by decide) (by decide) (by decide) (by decide)
    (by intro j hj hij; have hj3 : j < 3 := hj; omega) (by decide)

/-- Concrete per-rank buffers for the gather witnesses. -/
def exampleGatherData : Nat → Buf := fun r =>
  if r = 0 then [4, 5] else [6]

lemma gather_counts_getD (st : RouterState) (allData : Nat → Buf)
    (root q r : Nat) (hr : r < st.P) :
    ((gather_in_root st allData root q).2.1.2).getD r 0
      = (allData r).length := by
  simp only [gather_in_root]
  rw [List.getD_eq_getElem?_getD, List.getElem?_map, List.getElem?_range hr]
  rfl

/-- C5: `gather_in_root` returns the buffer as absent on every non-root
rank; at the root it returns a buffer whose length is the sum of all
per-rank counts; the counts vector entry for rank r is rank r's local
element count, and the counts vector is the same on every rank. -/
theorem gather_root_buffer_and_counts
    (st : RouterState) (allData : Nat → Buf) (root q q2 r : Nat)
    (hq : q ≠ root) (hr : r < st.P) :
    (gather_in_root st allData root q).2.1.1 = none ∧
    ((gather_in_root st allData root root).2.1.1).map List.length
      = some (((gather_in_root st allData root root).2.1.2).sum) ∧
    ((gather_in_root st allData root q).2.1.2).getD r 0
      = (allData r).length ∧
    (gather_in_root st allData root q).2.1.2
      = (gather_in_root st allData root q2).2.1.2 := by
  refine ⟨by simp [gather_in_root, hq], ?_, gather_counts_getD _ _ _ _ _ hr,
    by simp [gather_in_root]⟩
  simp only [gather_in_root, eq_self_iff_true, if_true, Option.map_some']
  congr 1
  rw [List.length_flatMap]
  congr 1
  apply List.map_congr_left
  intro x hx
  have hxP : x < st.P := List.mem_range.mp hx
  have hgd : ((List.range st.P).map (fun r2 => (allData r2).length)).getD x 0
      = (allData x).length := by
    rw [List.getD_eq_getElem?_getD, List.getElem?_map, List.getElem?_range hxP]
    rfl
  simp only [Function.comp_apply]
  rw [hgd, List.take_length]

/-- Witness for C5 with two ranks: rank 0 holds two elements, rank 1 one. -/
theorem gather_root_buffer_and_counts_witness :
    (gather_in_root (Router.init 2) exampleGatherData 0 1).2.1.1 = none ∧
    ((gather_in_root (Router.init 2) exampleGatherData 0 0).2.1.1).map
        List.length
      = some (((gather_in_root (Router.init 2) exampleGatherData 0 0).2.1.2).sum) ∧
    ((gather_in_root (Router.init 2) exampleGatherData 0 1).2.1.2).getD 1 0
      = (exampleGatherData 1).length ∧
    (gather_in_root (Router.init 2) exampleGatherData 0 1).2.1.2
      = (gather_in_root (Router.init 2) exampleGatherData 0 0).2.1.2 :=
  gather_root_buffer_and_counts (Router.init 2) exampleGatherData 0 1 0 1
    (by decide) (by decide)

lemma prefix_sum_le (counts : List Nat) (q : Nat) (hq : q < counts.length) :
    (counts.take q).sum + counts.getD q 0 ≤ counts.sum := by
  conv_rhs => rw [← List.take_append_drop (q + 1) counts]
  rw [List.sum_append, List.take_succ, List.sum_append,
    List.getElem?_eq_getElem hq]
  rw [List.getD_eq_getElem?_getD, List.getElem?_eq_getElem hq]
  simp

/-- For a rank within the explicit count table, `scatter_from_root`
succeeds and (when the counts partition the whole buffer) delivers exactly
the rank's slice of the root's buffer at the prefix-sum offset. -/
lemma scatter_explicit_slice (st : RouterState) (data : Buf)
    (counts : List Nat) (root q : Nat)
    (hq : q < counts.length) (hsum : counts.sum = data.length) :
    (scatter_from_root st data (some counts) root q).2.1
      = Except.ok ((data.drop ((counts.take q).sum)).take (counts.getD q 0)) := by
  have hmsg : ((data.drop ((counts.take q).sum)).take (counts.getD q 0)).length
      = counts.getD q 0 := by
    have hle := prefix_sum_le counts q hq
    rw [List.length_take, List.length_drop]
    omega
  have hn : counts.get ⟨q, hq⟩ = counts.getD q 0 := by
    rw [List.getD_eq_getElem?_getD, List.getElem?_eq_getElem hq]
    rfl
  have hsc : (if q = root then
        some (defaultCounts st data (some counts))
      else (some counts : Option (List Nat))) = some counts := by
    by_cases hqr : q = root <;> simp [hqr, defaultCounts]
  simp only [scatter_from_root]
  rw [hsc]
  simp only [defaultCounts, dif_pos hq]
  rw [hn, hmsg]
  simp [List.take_of_length_le (le_of_eq hmsg)]

/-- Concatenating, in rank order, each rank's slice of the buffer at the
prefix-sum offsets reassembles the buffer. -/
lemma chunk_concat (counts : List Nat) (data : Buf) :
    (List.range counts.length).flatMap
      (fun q => (data.drop ((counts.take q).sum)).take (counts.getD q 0))
    = data.take counts.sum := by
  induction counts generalizing data with
  | nil => simp
  | cons c cs ih =>
      rw [List.length_cons, List.range_succ_eq_map, List.flatMap_cons,
        List.flatMap_map, List.sum_cons, List.take_add]
      congr 1
      rw [← ih (data.drop c)]
      apply List.flatMap_congr
      intro x hx
      simp only [Nat.succ_eq_add_one, List.take_succ_cons, List.sum_cons,
        List.getD_cons_succ, List.drop_drop]

/-- The buffer a rank actually receives from a successful
`scatter_from_root` with an explicit count table. -/
def scatterOk (st : RouterState) (rootData : Buf) (counts : List Nat)
    (root q : Nat) : Buf :=
  match (scatter_from_root st rootData (some counts) root q).2.1 with
  | Except.ok b => b
  | Except.error _ => []

/-- C4: scattering a buffer from the root with an explicit per-rank count
table summing to the buffer length, then gathering every rank's received
buffer back to the same root, reproduces the original buffer exactly. -/
theorem scatter_then_gather_roundtrip
    (st : RouterState) (data : Buf) (counts : List Nat) (root : Nat)
    (hlen : counts.length = st.P)
    (hsum : counts.sum = data.length) :
    (gather_in_root st (fun q => scatterOk st data counts root q)
        root root).2.1.1
      = some data := by
  simp only [gather_in_root, eq_self_iff_true, if_true]
  congr 1
  have hslice : ∀ q, q < st.P →
      scatterOk st data counts root q
        = (data.drop ((counts.take q).sum)).take (counts.getD q 0) := by
    intro q hq
    have hq2 : q < counts.length := by rw [hlen]; exact hq
    rw [scatterOk, scatter_explicit_slice st data counts root q hq2 hsum]
  have hcnt : ∀ r, r < st.P →
      ((List.range st.P).map
        (fun r2 => (scatterOk st data counts root r2).length)).getD r 0
      = (scatterOk st data counts root r).length := by
    intro r hr
    rw [List.getD_eq_getElem?_getD, List.getElem?_map, List.getElem?_range hr]
    rfl
  have hmain : (List.range st.P).flatMap
      (fun r => (scatterOk st data counts root r).take
        (((List.range st.P).map
          (fun r2 => (scatterOk st data counts root r2).length)).getD r 0))
      = (List.range st.P).flatMap
        (fun q => (data.drop ((counts.take q).sum)).take (counts.getD q 0)) := by
    apply List.flatMap_congr
    intro x hx
    have hxP : x < st.P := List.mem_range.mp hx
    rw [hcnt x hxP, List.take_length, hslice x hxP]
  rw [hmain, ← hlen, chunk_concat, hsum, List.take_length]

/-- Witness for C4: buffer of 10 elements, uneven counts [3, 1, 4, 2]. -/
theorem scatter_then_gather_roundtrip_witness :
    (gather_in_root (Router.init 4)
        (fun q => scatterOk (Router.init 4) tenBuf [3, 1, 4, 2] 0 q)
        0 0).2.1.1
      = some tenBuf :=
  scatter_then_gather_roundtrip (Router.init 4) tenBuf [3, 1, 4, 2] 0
    (by decide) (by decide)

lemma zip_map_const (dests : List Nat) (buf : Buf) :
    dests.zip (dests.map (fun _ => buf)) = dests.map (fun d => (d, buf)) := by
  induction dests with
  | nil => rfl
  | cons d t ih => simp only [List.map_cons, List.zip_cons_cons, ih]

lemma sendPairs_bcast_eq_perDest (dests : List Nat) (buf : Buf) :
    sendPairs ⟨dests, DistData.bcast buf⟩
      = sendPairs ⟨dests, DistData.perDest (dests.map (fun _ => buf))⟩ := by
  simp only [sendPairs]
  rw [zip_map_const]

lemma fillCounts_bcast_eq_perDest (v : List Nat) (dests : List Nat)
    (buf : Buf) :
    fillCounts v dests (DistData.bcast buf)
      = fillCounts v dests (DistData.perDest (dests.map (fun _ => buf))) := by
  have h1 := fillCounts_sendPairs v ⟨dests, DistData.bcast buf⟩
  have h2 := fillCounts_sendPairs v ⟨dests, DistData.perDest (dests.map (fun _ => buf))⟩
  simp only at h1 h2
  rw [h1, h2, sendPairs_bcast_eq_perDest]

/-- If two argument assignments produce the same send pairs (hence the
same messages) and the same count vectors at every rank, every rank gets
the same `distribute` result. -/
lemma distributeAt_congr (P : Nat) (args args2 : Nat → DistArgs)
    (hd : ∀ r, sendPairs (args2 r) = sendPairs (args r))
    (hf : ∀ r, destCountAt P args2 r = destCountAt P args r) (q : Nat) :
    distributeAt P args2 q = distributeAt P args q := by
  have hsc : sourceCountAt P args2 q = sourceCountAt P args q := by
    simp only [sourceCountAt]
    exact List.map_congr_left (fun r _ => by rw [hf r])
  have hsrc : sourcesAt P args2 q = sourcesAt P args q := by
    simp only [sourcesAt, hsc]
  have hmsg : ∀ s, messagesTo args2 s q = messagesTo args s q := fun s => by
    simp only [messagesTo, hd s]
  simp only [distributeAt, hsrc, hsc]
  congr 1
  apply List.map_congr_left
  intro s _
  simp only [recvFrom, hmsg s]

/-- All writes carry the same value n: any index that is written at all
ends up holding n. -/
lemma foldl_setStep_const (l : List (Nat × Buf)) (acc : List Nat)
    (d n : Nat) (hall : ∀ p ∈ l, p.2.length = n)
    (hd : d ∈ l.map Prod.fst) (hdlen : d < acc.length) :
    (l.foldl setStep acc).getD d 0 = n := by
  induction l using List.reverseRecOn with
  | nil => simp at hd
  | append_singleton t p ih =>
      rw [List.foldl_append, List.foldl_cons, List.foldl_nil]
      by_cases hpd : p.1 = d
      · have hlen2 : d < (t.foldl setStep acc).length := by
          rw [foldl_setStep_length]; exact hdlen
        simp only [setStep, hpd]
        rw [getD_set_self _ _ _ hlen2]
        exact hall p (by simp)
      · simp only [setStep]
        rw [List.getD_eq_getElem?_getD, List.getElem?_set_ne hpd,
          ← List.getD_eq_getElem?_getD]
        have hdt : d ∈ t.map Prod.fst := by
          rw [List.map_append] at hd
          rcases List.mem_append.mp hd with h | h
          · exact h
          · simp at h
            exact absurd h.symm hpd
        exact ih (fun p2 hm => hall p2 (by simp [hm])) hdt

/-- C6: calling `distribute` with a single broadcast payload is
equivalent, at every rank of the group, to calling it with a
per-destination list holding one copy of that payload per destination;
and every listed (valid) destination's count-table entry is set to the
payload's element count. -/
theorem distribute_broadcast_equivalence
    (P : Nat) (args : Nat → DistArgs) (p : Nat) (buf : Buf) (q d : Nat)
    (hp : (args p).data = DistData.bcast buf)
    (hd : d ∈ (args p).destination) (hdP : d < P) :
    distributeAt P
      (Function.update args p
        ⟨(args p).destination,
          DistData.perDest ((args p).destination.map (fun _ => buf))⟩) q
      = distributeAt P args q ∧
    (destCountAt P args p).getD d 0 = buf.length := by
  have hap : args p = ⟨(args p).destination, DistData.bcast buf⟩ := by
    rw [← hp]
  constructor
  · apply distributeAt_congr
    · intro r
      by_cases hr : r = p
      · subst hr
        rw [Function.update_same]
        conv_rhs => rw [hap]
        exact (sendPairs_bcast_eq_perDest _ _).symm
      · rw [Function.update_noteq hr]
    · intro r
      simp only [destCountAt]
      by_cases hr : r = p
      · subst hr
        rw [Function.update_same]
        conv_rhs => rw [hap]
        exact (fillCounts_bcast_eq_perDest _ _ _).symm
      · rw [Function.update_noteq hr]
  · have hfill := fillCounts_sendPairs (List.replicate P 0) (args p)
    rw [destCountAt, hfill, map_zero_eq_replicate, List.length_replicate]
    apply foldl_setStep_const _ _ _ buf.length
    · intro p2 hp2
      rw [hap] at hp2
      simp only [sendPairs] at hp2
      obtain ⟨d2, _, he⟩ := List.mem_map.mp hp2
      rw [← he]
    · rw [hap]
      simp only [sendPairs]
      rw [map_fst_map_pair]
      rw [hap] at hd
      exact hd
    · rw [List.length_replicate]
      exact hdP

/-- Concrete arguments for the C6 witness: rank 0 broadcasts one payload
to ranks 0 and 1; rank 1 sends nothing. -/
def exampleBcastArgs : Nat → DistArgs := fun s =>
  if s = 0 then ⟨[0, 1], DistData.bcast [9, 9, 9]⟩
  else ⟨[], DistData.bcast []⟩

/-- Witness for C6: two ranks; rank 0 broadcasts a 3-element payload to
both ranks. -/
theorem distribute_broadcast_equivalence_witness :
    distributeAt 2
      (Function.update exampleBcastArgs 0
        ⟨(exampleBcastArgs 0).destination,
          DistData.perDest
            ((exampleBcastArgs 0).destination.map (fun _ => [9, 9, 9]))⟩) 1
      = distributeAt 2 exampleBcastArgs 1 ∧
    (destCountAt 2 exampleBcastArgs 0).getD 1 0
      = ([9, 9, 9] : Buf).length :=
  distribute_broadcast_equivalence 2 exampleBcastArgs 0 [9, 9, 9] 1 1
    (by decide) (by decide) (by decide)

/-- Protocol phase of a communication event within one distribute round:
count exchange (0), posting receives (1), sending (2), awaiting
receives (3). -/
def phase : Event → Nat
  | Event.irecv _ _ => 1
  | Event.isend _ _ _ => 2
  | Event.waitSend _ => 2
  | Event.waitRecv _ => 3
  | _ => 0

/-- The source rank of a posted receive, if the event is one. -/
def irecvSrc : Event → Option Nat
  | Event.irecv s _ => some s
  | _ => none

/-- The destination rank of an issued send, if the event is one. -/
def isendDst : Event → Option Nat
  | Event.isend d _ _ => some d
  | _ => none

/-- The source rank of a receive wait, if the event is one. -/
def waitRecvSrc : Event → Option Nat
  | Event.waitRecv s => some s
  | _ => none

lemma sendPhaseTrace_eq_pairs (a : DistArgs) (tag : Int) :
    sendPhaseTrace a tag
      = (sendPairs a).flatMap
          (fun p => [Event.isend p.1 p.2.length tag, Event.waitSend p.1]) := by
  obtain ⟨dest, dat⟩ := a
  cases dat with
  | perDest bufs => rfl
  | bcast buf =>
      simp only [sendPhaseTrace, sendPairs]
      rw [List.flatMap_map]

lemma mem_sendPhaseTrace (a : DistArgs) (tag : Int) :
    ∀ e ∈ sendPhaseTrace a tag,
      phase e = 2 ∧ irecvSrc e = none ∧ waitRecvSrc e = none := by
  intro e he
  rw [sendPhaseTrace_eq_pairs] at he
  obtain ⟨p, _, he2⟩ := List.mem_flatMap.mp he
  simp only [List.mem_cons, List.mem_singleton, List.not_mem_nil,
    or_false] at he2
  rcases he2 with h | h <;> subst h <;> exact ⟨rfl, rfl, rfl⟩

lemma pairwise_le_of_const (l : List Nat) (c : Nat) (h : ∀ x ∈ l, x = c) :
    l.Pairwise (· ≤ ·) := by
  induction l with
  | nil => exact List.Pairwise.nil
  | cons x t ih =>
      refine List.Pairwise.cons ?_ (ih (fun y hy => h y (by simp [hy])))
      intro y hy
      rw [h x (by simp), h y (by simp [hy])]

/-- Every send in the list is immediately followed by the wait on that
same send. -/
def isendThenWait (l : List Event) : Prop :=
  ∀ j d sz t, l[j]? = some (Event.isend d sz t) →
    l[j + 1]? = some (Event.waitSend d)

lemma isendThenWait_pairs (pl : List (Nat × Buf)) (tag : Int)
    (suffix : List Event)
    (hsuf : ∀ e ∈ suffix, ∀ d sz t, e ≠ Event.isend d sz t) :
    isendThenWait
      ((pl.flatMap
        (fun p => [Event.isend p.1 p.2.length tag, Event.waitSend p.1]))
        ++ suffix) := by
  induction pl with
  | nil =>
      intro j d sz t hj
      exfalso
      simp only [List.flatMap_nil, List.nil_append] at hj
      exact hsuf _ (List.getElem?_mem hj) d sz t rfl
  | cons p pl ih =>
      intro j d sz t hj
      simp only [List.flatMap_cons, List.cons_append, List.nil_append] at hj ⊢
      match j with
      | 0 =>
          rw [List.getElem?_cons_zero] at hj
          simp only [Option.some.injEq, Event.isend.injEq] at hj
          rw [List.getElem?_cons_succ, List.getElem?_cons_zero, hj.1]
      | 1 =>
          rw [List.getElem?_cons_succ, List.getElem?_cons_zero] at hj
          exact absurd hj (by simp)
      | j + 2 =>
          rw [List.getElem?_cons_succ, List.getElem?_cons_succ] at hj ⊢
          exact ih j d sz t hj

lemma isendThenWait_cons (e : Event) (l : List Event)
    (he : ∀ d sz t, e ≠ Event.isend d sz t) (h : isendThenWait l) :
    isendThenWait (e :: l) := by
  intro j d sz t hj
  match j with
  | 0 =>
      rw [List.getElem?_cons_zero] at hj
      simp only [Option.some.injEq] at hj
      exact absurd hj (he d sz t)
  | j + 1 =>
      rw [List.getElem?_cons_succ] at hj
      rw [List.getElem?_cons_succ]
      exact h j d sz t hj

lemma isendThenWait_append (pre l : List Event)
    (hpre : ∀ e ∈ pre, ∀ d sz t, e ≠ Event.isend d sz t)
    (h : isendThenWait l) :
    isendThenWait (pre ++ l) := by
  induction pre with
  | nil => simpa
  | cons e t ih =>
      rw [List.cons_append]
      exact isendThenWait_cons e _ (hpre e (by simp))
        (ih (fun e2 hm => hpre e2 (by simp [hm])))

lemma filterMap_none_of_all (f : Event → Option Nat) (l : List Event)
    (h : ∀ e ∈ l, f e = none) : l.filterMap f = [] := by
  induction l with
  | nil => rfl
  | cons e t ih =>
      rw [List.filterMap_cons, h e (by simp)]
      exact ih (fun e2 hm => h e2 (by simp [hm]))

lemma filterMap_irecvSrc_map (sources : List Nat) (tag : Int) :
    (sources.map (fun s => Event.irecv s tag)).filterMap irecvSrc
      = sources := by
  induction sources with
  | nil => rfl
  | cons s t ih =>
      simp only [List.map_cons, List.filterMap_cons, irecvSrc, ih]

lemma filterMap_waitRecvSrc_map (sources : List Nat) :
    (sources.map (fun s => Event.waitRecv s)).filterMap waitRecvSrc
      = sources := by
  induction sources with
  | nil => rfl
  | cons s t ih =>
      simp only [List.map_cons, List.filterMap_cons, waitRecvSrc, ih]

lemma filterMap_isendDst_pairs (pl : List (Nat × Buf)) (tag : Int) :
    ((pl.flatMap
      (fun p => [Event.isend p.1 p.2.length tag, Event.waitSend p.1]))
      ).filterMap isendDst
      = pl.map Prod.fst := by
  induction pl with
  | nil => rfl
  | cons p t ih =>
      simp only [List.flatMap_cons, List.cons_append, List.nil_append,
        List.filterMap_cons, isendDst, ih, List.map_cons]

/-- C9: inside one `distribute` call the communication trace is ordered as
the code issues it: the count exchange first, then every non-blocking
receive is posted before any send is issued, every send is immediately
followed by the wait blocking on that same send (so each send completes
before the next is issued), and every wait on a posted receive comes
after the whole send phase; one receive is posted and awaited per active
source, and one send is issued per destination-list entry in the order
given. -/
theorem distribute_trace_ordering
    (st : RouterState) (args : Nat → DistArgs) (q : Nat) (tag : Int)
    (j d sz : Nat) (t : Int)
    (hlen : lenMatch (args q))
    (hj : ((send_recv st args q tag).2.2)[j]? = some (Event.isend d sz t)) :
    (((send_recv st args q tag).2.2).map phase).Pairwise (· ≤ ·) ∧
    ((send_recv st args q tag).2.2)[j + 1]? = some (Event.waitSend d) ∧
    ((send_recv st args q tag).2.2).filterMap irecvSrc
      = (send_recv st args q tag).2.1.1 ∧
    ((send_recv st args q tag).2.2).filterMap waitRecvSrc
      = (send_recv st args q tag).2.1.1 ∧
    ((send_recv st args q tag).2.2).filterMap isendDst
      = (args q).destination := by
  have htr : (send_recv st args q tag).2.2
      = Event.alltoall ::
        (((send_recv st args q tag).2.1.1).map (fun s => Event.irecv s tag)
          ++ sendPhaseTrace (args q) tag
          ++ ((send_recv st args q tag).2.1.1).map
              (fun s => Event.waitRecv s)) := rfl
  have hR : ∀ e ∈ ((send_recv st args q tag).2.1.1).map
      (fun s => Event.irecv s tag),
      phase e = 1 ∧ irecvSrc e = some (match e with
        | Event.irecv s _ => s
        | _ => 0) ∧ waitRecvSrc e = none ∧ isendDst e = none := by
    intro e he
    obtain ⟨s, _, hse⟩ := List.mem_map.mp he
    subst hse
    exact ⟨rfl, rfl, rfl, rfl⟩
  have hW : ∀ e ∈ ((send_recv st args q tag).2.1.1).map
      (fun s => Event.waitRecv s),
      phase e = 3 ∧ irecvSrc e = none ∧ isendDst e = none := by
    intro e he
    obtain ⟨s, _, hse⟩ := List.mem_map.mp he
    subst hse
    exact ⟨rfl, rfl, rfl⟩
  have hS := mem_sendPhaseTrace (args q) tag
  refine ⟨?_, ?_, ?_, ?_, ?_⟩
  · -- phases are monotone along the trace
    rw [htr]
    simp only [List.map_cons, List.map_append]
    refine List.Pairwise.cons (fun y _ => Nat.zero_le y) ?_
    rw [List.pairwise_append]
    refine ⟨?_, ?_, ?_⟩
    · rw [List.pairwise_append]
      refine ⟨?_, ?_, ?_⟩
      · apply pairwise_le_of_const _ 1
        intro y hy
        obtain ⟨e, he, hye⟩ := List.mem_map.mp hy
        rw [← hye, (hR e he).1]
      · apply pairwise_le_of_const _ 2
        intro y hy
        obtain ⟨e, he, hye⟩ := List.mem_map.mp hy
        rw [← hye, (hS e he).1]
      · intro a ha b hb
        obtain ⟨e, he, hae⟩ := List.mem_map.mp ha
        obtain ⟨e2, he2, hbe⟩ := List.mem_map.mp hb
        rw [← hae, (hR e he).1, ← hbe, (hS e2 he2).1]
        decide
    · apply pairwise_le_of_const _ 3
      intro y hy
      obtain ⟨e, he, hye⟩ := List.mem_map.mp hy
      rw [← hye, (hW e he).1]
    · intro a ha b hb
      obtain ⟨e2, he2, hbe⟩ := List.mem_map.mp hb
      rw [← hbe, (hW e2 he2).1]
      rcases List.mem_append.mp ha with h | h
      · obtain ⟨e, he, hae⟩ := List.mem_map.mp h
        rw [← hae, (hR e he).1]
        decide
      · obtain ⟨e, he, hae⟩ := List.mem_map.mp h
        rw [← hae, (hS e he).1]
        decide
  · -- each send is immediately followed by its own wait
    have hmain : isendThenWait ((send_recv st args q tag).2.2) := by
      rw [htr]
      have hshape : Event.alltoall ::
          (((send_recv st args q tag).2.1.1).map (fun s => Event.irecv s tag)
            ++ sendPhaseTrace (args q) tag
            ++ ((send_recv st args q tag).2.1.1).map
                (fun s => Event.waitRecv s))
          = (Event.alltoall ::
              ((send_recv st args q tag).2.1.1).map
                (fun s => Event.irecv s tag))
            ++ (sendPhaseTrace (args q) tag
              ++ ((send_recv st args q tag).2.1.1).map
                  (fun s => Event.waitRecv s)) := by
        rw [List.cons_append, List.append_assoc]
      rw [hshape]
      apply isendThenWait_append
      · intro e he d2 sz2 t2
        rcases List.mem_cons.mp he with h | h
        · subst h; simp
        · obtain ⟨s, _, hse⟩ := List.mem_map.mp h
          subst hse; simp
      · rw [sendPhaseTrace_eq_pairs]
        apply isendThenWait_pairs
        intro e he d2 sz2 t2
        obtain ⟨s, _, hse⟩ := List.mem_map.mp he
        subst hse; simp
    exact hmain j d sz t hj
  · -- the posted receives are exactly the returned sources, in order
    rw [htr, List.filterMap_cons]
    simp only [irecvSrc]
    rw [List.filterMap_append, List.filterMap_append]
    rw [filterMap_irecvSrc_map,
      filterMap_none_of_all _ _ (fun e he => (hS e he).2.1),
      filterMap_none_of_all _ _ (fun e he => (hW e he).2.1)]
    simp
  · -- the awaited receives are exactly the returned sources, in order
    rw [htr, List.filterMap_cons]
    simp only [waitRecvSrc]
    rw [List.filterMap_append, List.filterMap_append]
    rw [filterMap_waitRecvSrc_map,
      filterMap_none_of_all _ _ (fun e he => (hR e he).2.2.1),
      filterMap_none_of_all _ _ (fun e he => (hS e he).2.2)]
    simp
  · -- the issued sends are exactly the destination list, in order
    rw [htr, List.filterMap_cons]
    simp only [isendDst]
    rw [List.filterMap_append, List.filterMap_append]
    rw [filterMap_none_of_all _ _ (fun e he => (hR e he).2.2.2),
      filterMap_none_of_all _ _ (fun e he => (hW e he).2.2)]
    rw [sendPhaseTrace_eq_pairs, filterMap_isendDst_pairs,
      map_fst_sendPairs _ hlen]
    simp

/-- Witness for C9 at the concrete example, rank 0, whose trace is
[alltoall, irecv 1, isend 1, waitSend 1, waitRecv 1]: the isend sits at
index 2. -/
theorem distribute_trace_ordering_witness :
    (((send_recv (Router.init 2) exampleArgs 0 0).2.2).map phase).Pairwise
        (· ≤ ·) ∧
    ((send_recv (Router.init 2) exampleArgs 0 0).2.2)[2 + 1]?
      = some (Event.waitSend 1) ∧
    ((send_recv (Router.init 2) exampleArgs 0 0).2.2).filterMap irecvSrc
      = (send_recv (Router.init 2) exampleArgs 0 0).2.1.1 ∧
    ((send_recv (Router.init 2) exampleArgs 0 0).2.2).filterMap waitRecvSrc
      = (send_recv (Router.init 2) exampleArgs 0 0).2.1.1 ∧
    ((send_recv (Router.init 2) exampleArgs 0 0).2.2).filterMap isendDst
      = (exampleArgs 0).destination :=
  distribute_trace_ordering (Router.init 2) exampleArgs 0 0 2 1 3 0
    (by decide) (by decide)

